import Mathlib

/-!
Verification development for the MS-OPTIMIZATION-GO repository.

The three engines (money change, knapsack inventory optimization, table
assignment) are shallowly embedded here.  Go `int` is modelled as `ℤ`,
Go `float64` as `ℚ` with exact arithmetic, Go integer division (which
truncates toward zero) as `Int.tdiv`, Go's `int(x)` float-to-int
conversion (truncation toward zero) as `goTrunc`, Go maps used as
`map[int]int` as association lists with overwrite-on-insert, and Go
slices as `List`.  `math.Sqrt` has no exact rational counterpart, so the
table-assignment definitions are parameterized by an arbitrary function
`sq : ℚ → ℚ` standing for the square root; every theorem about them is
proved for all `sq`.  Go's unstable `sort.Sort`/`sort.Slice` is modelled
by `List.insertionSort` with the corresponding comparison (any sort
consistent with the comparator is a faithful model, since the Go sort is
unstable and therefore underdetermined).
-/

/-! ## Money change engine (internal/algorithms/money_change.go) -/

/-- Descending sort of the coin denominations, as performed by
`NewMoneyChangeAlgorithm` via `sort.Sort(sort.Reverse(sort.IntSlice(...)))`. -/
def sortDescInt (l : List ℤ) : List ℤ :=
  List.insertionSort (fun a b => b ≤ a) l

/-- `MoneyChangeAlgorithm` struct: holds the available coin denominations. -/
structure MoneyChangeAlgorithm where
  coins : List ℤ
deriving DecidableEq

/-- `NewMoneyChangeAlgorithm`: stores the denominations sorted in descending
order for the greedy approach. -/
def NewMoneyChangeAlgorithm (coins : List ℤ) : MoneyChangeAlgorithm :=
  { coins := sortDescInt coins }

/-- `ChangeResult` struct.  Field defaults are the Go zero values, used for
fields omitted from a Go struct literal. -/
structure ChangeResult where
  TotalCoins : ℤ := 0
  Breakdown : List (ℤ × ℤ) := []
  Success : Bool := false
  Message : String := ""
deriving DecidableEq

/-- Insertion into a Go `map[int]int`, overwriting an existing key. -/
def mapSet (m : List (ℤ × ℤ)) (k v : ℤ) : List (ℤ × ℤ) :=
  match m with
  | [] => [(k, v)]
  | kv :: rest => if kv.1 = k then (k, v) :: rest else kv :: mapSet rest k v

/-- Sum of `denomination × count` over a breakdown map. -/
def mapSum (m : List (ℤ × ℤ)) : ℤ :=
  (m.map fun kv => kv.1 * kv.2).sum

/-- Sum of the quantities of a breakdown map (the `totalCoins` loop). -/
def mapCount (m : List (ℤ × ℤ)) : ℤ :=
  (m.map fun kv => kv.2).sum

/-- The greedy pass of `CalculateChange`: for each coin in order, if
`remaining >= coin` record `quantity = remaining / coin` (Go truncated
division) in the breakdown and subtract `quantity * coin`. -/
def changeLoop : List ℤ → ℤ → List (ℤ × ℤ) → List (ℤ × ℤ) × ℤ
  | [], rem, b => (b, rem)
  | c :: cs, rem, b =>
    if c ≤ rem then
      changeLoop cs (rem - rem.tdiv c * c) (mapSet b c (rem.tdiv c))
    else
      changeLoop cs rem b

/-- `CalculateChange` of `money_change.go`. -/
def CalculateChange (mca : MoneyChangeAlgorithm) (amount : ℤ) : ChangeResult :=
  if amount < 0 then
    { Success := false, Message := "Amount cannot be negative" }
  else if amount = 0 then
    { TotalCoins := 0, Breakdown := [], Success := true,
      Message := "No change needed" }
  else
    let res := changeLoop mca.coins amount []
    let totalCoins := mapCount res.1
    if 0 < res.2 then
      { Success := false,
        Message := "Cannot make exact change. Remaining: " ++ toString res.2 }
    else
      { TotalCoins := totalCoins, Breakdown := res.1, Success := true,
        Message := "Change calculated with " ++ toString totalCoins ++ " coins" }

/-- If no existing key equals `k`, `mapSet` is append. -/
theorem mapSet_eq_append (m : List (ℤ × ℤ)) (k v : ℤ)
    (h : ∀ kv ∈ m, kv.1 ≠ k) : mapSet m k v = m ++ [(k, v)] := by
  induction m with
  | nil => rfl
  | cons kv rest ih =>
    have hne : kv.1 ≠ k := h kv (by simp)
    simp only [mapSet, if_neg hne, List.cons_append]
    rw [ih (fun kv' h' => h kv' (by simp [h']))]

theorem mapSum_append (m : List (ℤ × ℤ)) (k v : ℤ) :
    mapSum (m ++ [(k, v)]) = mapSum m + k * v := by
  simp [mapSum]

/-- Invariant of the greedy pass: with positive denominations, a nonnegative
remainder and every recorded key strictly above the remainder, the loop
preserves `mapSum breakdown + remaining`, keeps the remainder nonnegative and
keeps every recorded key strictly above the remainder. -/
theorem changeLoop_invariant (cs : List ℤ) (b : List (ℤ × ℤ)) (rem : ℤ)
    (hcs : ∀ c ∈ cs, 0 < c) (hrem : 0 ≤ rem) (hb : ∀ kv ∈ b, rem < kv.1) :
    mapSum (changeLoop cs rem b).1 + (changeLoop cs rem b).2 = mapSum b + rem
    ∧ 0 ≤ (changeLoop cs rem b).2
    ∧ ∀ kv ∈ (changeLoop cs rem b).1, (changeLoop cs rem b).2 < kv.1 := by
  induction cs generalizing b rem with
  | nil => exact ⟨rfl, hrem, hb⟩
  | cons c cs ih =>
    have hc : 0 < c := hcs c (by simp)
    by_cases hle : c ≤ rem
    · have hkeys : ∀ kv ∈ b, kv.1 ≠ c := by
        intro kv hkv
        have := hb kv hkv
        omega
      have happ := mapSet_eq_append b c (rem.tdiv c) hkeys
      have htm : c * rem.tdiv c + rem.tmod c = rem := Int.tdiv_add_tmod rem c
      have htm0 : 0 ≤ rem.tmod c := Int.tmod_nonneg c hrem
      have htmlt : rem.tmod c < c := Int.tmod_lt_of_pos rem hc
      have hrem' : rem - rem.tdiv c * c = rem.tmod c := by linarith [htm]
      have hq : 0 ≤ rem.tdiv c := Int.tdiv_nonneg hrem (le_of_lt hc)
      simp only [changeLoop, if_pos hle]
      rw [hrem']
      have hstep := ih (mapSet b c (rem.tdiv c)) (rem.tmod c)
        (fun x hx => hcs x (by simp [hx])) htm0 ?_
      · refine ⟨?_, hstep.2.1, hstep.2.2⟩
        rw [hstep.1, happ, mapSum_append]
        linarith [htm]
      · intro kv hkv
        rw [happ] at hkv
        rcases List.mem_append.mp hkv with h | h
        · have := hb kv h
          omega
        · simp only [List.mem_singleton] at h
          rw [h]
          exact htmlt
    · simp only [changeLoop, if_neg hle]
      exact ih b rem (fun x hx => hcs x (by simp [hx])) hrem hb

/-- Positivity of the denominations is preserved by the descending sort. -/
theorem sortDescInt_pos (coins : List ℤ) (h : ∀ c ∈ coins, 0 < c) :
    ∀ c ∈ sortDescInt coins, 0 < c := by
  intro c hc
  exact h c ((List.perm_insertionSort _ coins).mem_iff.mp hc)

/-- C1: for every denomination set (positive denominations, per the data
model) and every non-negative amount, if `CalculateChange` succeeds then the
sum over the breakdown of `denomination × count` equals the amount; and for
amount `0` the result is successful with an empty breakdown and a total coin
count of `0`. -/
theorem CalculateChange_success_sum (coins : List ℤ) (amount : ℤ)
    (hpos : ∀ c ∈ coins, 0 < c) (hamt : 0 ≤ amount) :
    ((CalculateChange (NewMoneyChangeAlgorithm coins) amount).Success = true →
      mapSum (CalculateChange (NewMoneyChangeAlgorithm coins) amount).Breakdown
        = amount)
    ∧ (amount = 0 →
      (CalculateChange (NewMoneyChangeAlgorithm coins) amount).Success = true
      ∧ (CalculateChange (NewMoneyChangeAlgorithm coins) amount).Breakdown = []
      ∧ (CalculateChange (NewMoneyChangeAlgorithm coins) amount).TotalCoins = 0) := by
  have hnotneg : ¬ amount < 0 := not_lt.mpr hamt
  by_cases h0 : amount = 0
  · constructor
    · intro _
      simp [CalculateChange, if_neg hnotneg, h0, mapSum]
    · intro _
      simp [CalculateChange, if_neg hnotneg, h0]
  · have hinv := changeLoop_invariant (NewMoneyChangeAlgorithm coins).coins []
      amount (sortDescInt_pos coins hpos) hamt (by simp)
    constructor
    · intro hsucc
      by_contra hne
      by_cases hrempos :
          0 < (changeLoop (NewMoneyChangeAlgorithm coins).coins amount []).2
      · simp [CalculateChange, if_neg hnotneg, if_neg h0, hrempos] at hsucc
      · have hrzero :
            (changeLoop (NewMoneyChangeAlgorithm coins).coins amount []).2 = 0 := by
          omega
        apply hne
        simp [CalculateChange, if_neg hnotneg, if_neg h0, hrempos]
        have := hinv.1
        rw [hrzero] at this
        simpa [mapSum] using this
    · intro h
      exact absurd h h0

/-- Concrete instance of C1: coins `{25,10,5,1}`, amount `37`. -/
theorem CalculateChange_success_sum_witness :
    (∀ c ∈ ([25, 10, 5, 1] : List ℤ), 0 < c) ∧ (0 : ℤ) ≤ 37 ∧
    (((CalculateChange (NewMoneyChangeAlgorithm [25, 10, 5, 1]) 37).Success = true →
      mapSum (CalculateChange (NewMoneyChangeAlgorithm [25, 10, 5, 1]) 37).Breakdown
        = 37)
    ∧ ((37 : ℤ) = 0 →
      (CalculateChange (NewMoneyChangeAlgorithm [25, 10, 5, 1]) 37).Success = true
      ∧ (CalculateChange (NewMoneyChangeAlgorithm [25, 10, 5, 1]) 37).Breakdown = []
      ∧ (CalculateChange (NewMoneyChangeAlgorithm [25, 10, 5, 1]) 37).TotalCoins = 0)) :=
  ⟨by decide, by decide,
    CalculateChange_success_sum [25, 10, 5, 1] 37 (by decide) (by decide)⟩

/-- C6: whenever the greedy pass leaves a positive remainder, the result is a
failure whose message reports the residual amount (and nothing else changes
from the zero result). -/
theorem CalculateChange_unrepresentable (coins : List ℤ) (amount : ℤ)
    (h0 : 0 < amount)
    (hrem : 0 < (changeLoop (NewMoneyChangeAlgorithm coins).coins amount []).2) :
    CalculateChange (NewMoneyChangeAlgorithm coins) amount =
      { Success := false,
        Message := "Cannot make exact change. Remaining: " ++
          toString (changeLoop (NewMoneyChangeAlgorithm coins).coins amount []).2 } := by
  have hnotneg : ¬ amount < 0 := by omega
  have hne : amount ≠ 0 := by omega
  simp [CalculateChange, if_neg hnotneg, if_neg hne, hrem]

/-- Concrete instance of C6: denominations `{4}`, amount `6` gives a failure
with remaining `2` reported in the message. -/
theorem CalculateChange_unrepresentable_witness :
    (0 : ℤ) < 6 ∧
    (0 < (changeLoop (NewMoneyChangeAlgorithm [4]).coins 6 []).2) ∧
    CalculateChange (NewMoneyChangeAlgorithm [4]) 6 =
      { Success := false,
        Message := "Cannot make exact change. Remaining: 2" } := by
  refine ⟨by decide, by decide, ?_⟩
  rw [CalculateChange_unrepresentable [4] 6 (by decide) (by decide)]
  decide

/-- C10: when the amount is positive and the greedy pass leaves a positive
remainder, the failure result exposes no partial breakdown: its breakdown is
empty and its total coin count is `0`. -/
theorem CalculateChange_failure_no_partial (coins : List ℤ) (amount : ℤ)
    (h0 : 0 < amount)
    (hrem : 0 < (changeLoop (NewMoneyChangeAlgorithm coins).coins amount []).2) :
    (CalculateChange (NewMoneyChangeAlgorithm coins) amount).Breakdown = []
    ∧ (CalculateChange (NewMoneyChangeAlgorithm coins) amount).TotalCoins = 0 := by
  have hnotneg : ¬ amount < 0 := by omega
  have hne : amount ≠ 0 := by omega
  simp [CalculateChange, if_neg hnotneg, if_neg hne, hrem]

/-- Concrete instance of C10: denominations `{3}`, amount `7` fails with an
empty breakdown and zero total coins even though the pass recorded two coins
of `3` internally. -/
theorem CalculateChange_failure_no_partial_witness :
    (0 : ℤ) < 7 ∧
    (0 < (changeLoop (NewMoneyChangeAlgorithm [3]).coins 7 []).2) ∧
    ((CalculateChange (NewMoneyChangeAlgorithm [3]) 7).Breakdown = []
      ∧ (CalculateChange (NewMoneyChangeAlgorithm [3]) 7).TotalCoins = 0) :=
  ⟨by decide, by decide,
    CalculateChange_failure_no_partial [3] 7 (by decide) (by decide)⟩

/-! ## Table assignment engine (internal/algorithms, TableAssignmentAlgorithm) -/

/-- `TableAssignment` struct: a table in the bar. -/
structure TableAssignment where
  ID : String := ""
  Code : String := ""
  Capacity : ℤ := 0
  LocationX : ℚ := 0
  LocationY : ℚ := 0
  IsAvailable : Bool := false
  IsOccupied : Bool := false
  Priority : ℤ := 0
deriving DecidableEq

/-- `CustomerGroup` struct: a group of customers requesting a table. -/
structure CustomerGroup where
  ID : String := ""
  Size : ℤ := 0
  Priority : ℤ := 0
  PreferredX : Option ℚ := none
  PreferredY : Option ℚ := none
  MaxDistance : ℚ := 0
deriving DecidableEq

/-- `Assignment` struct: a table assigned to a customer group. -/
structure Assignment where
  TableID : String := ""
  TableCode : String := ""
  CustomerID : String := ""
  Distance : ℚ := 0
  FitnessScore : ℚ := 0
  CapacityUtil : ℚ := 0
deriving DecidableEq

/-- `AssignmentResult` struct.  Defaults are Go zero values. -/
structure AssignmentResult where
  Assignments : List Assignment := []
  UnassignedGroups : List String := []
  TotalFitness : ℚ := 0
  AverageFitness : ℚ := 0
  TablesUsed : ℤ := 0
  CustomersServed : ℤ := 0
  Message : String := ""
deriving DecidableEq

/-- `calculateDistance`: Euclidean distance.  `math.Sqrt` is modelled by the
uninterpreted parameter `sq`, since exact rationals have no square root; all
theorems below hold for every `sq`. -/
def calculateDistance (sq : ℚ → ℚ) (x1 y1 x2 y2 : ℚ) : ℚ :=
  sq ((x2 - x1) * (x2 - x1) + (y2 - y1) * (y2 - y1))

/-- The priority bonus of `calculateFitnessScore`:
`float64(priority) / maxPriority * 0.1` with `maxPriority = 10.0`, used both
for the table priority and for the customer priority. -/
def priorityBonus (p : ℤ) : ℚ :=
  (p : ℚ) / 10 * (1 / 10)

/-- Tail of `calculateFitnessScore`: add the table-priority and
customer-priority bonuses, then clamp the score to `[0, 1]`. -/
def finishScore (score : ℚ) (table : TableAssignment) (group : CustomerGroup) : ℚ :=
  let s1 := score + priorityBonus table.Priority + priorityBonus group.Priority
  let s2 := if 1 < s1 then 1 else s1
  if s2 < 0 then 0 else s2

/-- `calculateFitnessScore`: how well a table fits a customer group. -/
def calculateFitnessScore (sq : ℚ → ℚ) (table : TableAssignment)
    (group : CustomerGroup) : ℚ :=
  if table.Capacity < group.Size then 0
  else
    let capacityRatio : ℚ := (group.Size : ℚ) / (table.Capacity : ℚ)
    let score : ℚ :=
      if capacityRatio < 1 / 2 then 1 * (7 / 10)
      else if capacityRatio < 3 / 4 then 1 * (9 / 10)
      else 1
    match group.PreferredX, group.PreferredY with
    | some px, some py =>
      let distance := calculateDistance sq table.LocationX table.LocationY px py
      if 0 < group.MaxDistance ∧ group.MaxDistance < distance then 0
      else
        let distance2 := if 100 < distance then 100 else distance
        let distancePenalty := distance2 / 100
        finishScore (score * (1 - distancePenalty * (3 / 10))) table group
    | _, _ => finishScore score table group

/-- `getGroupIDs` helper. -/
def getGroupIDs (groups : List CustomerGroup) : List String :=
  groups.map (·.ID)

/-- Group ordering of `AssignTablesGreedy`: priority descending, then size
descending. -/
def sortGroups (groups : List CustomerGroup) : List CustomerGroup :=
  List.insertionSort
    (fun a b => b.Priority < a.Priority ∨ (a.Priority = b.Priority ∧ b.Size ≤ a.Size))
    groups

/-- One iteration of the inner loop of `AssignTablesGreedy`: skip tables
already assigned, keep a table whose score strictly exceeds the best so far
and is positive. -/
def findBestStep (sq : ℚ → ℚ) (assignedIDs : List String) (group : CustomerGroup)
    (acc : ℚ × TableAssignment) (table : TableAssignment) : ℚ × TableAssignment :=
  if table.ID ∈ assignedIDs then acc
  else
    let score := calculateFitnessScore sq table group
    if acc.1 < score ∧ 0 < score then (score, table) else acc

/-- The inner loop of `AssignTablesGreedy`: find the not-yet-assigned
available table with the strictly highest positive fitness score.  The
accumulator starts at score `-1` with the zero-valued `TableAssignment{}`. -/
def findBestTable (sq : ℚ → ℚ) (availableTables : List TableAssignment)
    (assignedIDs : List String) (group : CustomerGroup) : ℚ × TableAssignment :=
  availableTables.foldl (findBestStep sq assignedIDs group) (-1, {})

/-- State of the outer greedy loop of `AssignTablesGreedy`. -/
structure AssignState where
  assignments : List Assignment := []
  assignedIDs : List String := []
  unassigned : List String := []

/-- One iteration of the outer greedy loop of `AssignTablesGreedy`. -/
def assignStep (sq : ℚ → ℚ) (availableTables : List TableAssignment)
    (st : AssignState) (group : CustomerGroup) : AssignState :=
  let best := findBestTable sq availableTables st.assignedIDs group
  if 0 < best.1 then
    let distance : ℚ :=
      match group.PreferredX, group.PreferredY with
      | some px, some py =>
        calculateDistance sq best.2.LocationX best.2.LocationY px py
      | _, _ => 0
    let capacityUtil : ℚ := (group.Size : ℚ) / (best.2.Capacity : ℚ)
    { assignments := st.assignments ++
        [{ TableID := best.2.ID, TableCode := best.2.Code, CustomerID := group.ID,
           Distance := distance, FitnessScore := best.1,
           CapacityUtil := capacityUtil }],
      assignedIDs := st.assignedIDs ++ [best.2.ID],
      unassigned := st.unassigned }
  else
    { st with unassigned := st.unassigned ++ [group.ID] }

/-- The `customersServed` statistics loop: for each assignment, the size of
the first group in the original list whose id matches. -/
def customersServedCount (groups : List CustomerGroup)
    (assignments : List Assignment) : ℤ :=
  (assignments.map (fun a =>
    match groups.find? (fun g => g.ID == a.CustomerID) with
    | some g => g.Size
    | none => 0)).sum

/-- Rounding to the nearest integer with ties to even, as performed by Go's
`fmt` fixed-point formatting of an exactly-represented value. -/
def roundHalfEven (q : ℚ) : ℤ :=
  let f := Rat.floor q
  let r := q - f
  if r < 1 / 2 then f
  else if 1 / 2 < r then f + 1
  else if f % 2 = 0 then f else f + 1

/-- Zero-padding on the left to a given length. -/
def padZeros (s : String) (len : ℕ) : String :=
  String.mk (List.replicate (len - s.length) '0') ++ s

/-- Model of Go's `%.Nf` fixed-point formatting of a `float64`, applied to
the exact rational that models the float. -/
def fmtFixed (prec : ℕ) (q : ℚ) : String :=
  let n := roundHalfEven (q * ((10 : ℚ) ^ prec))
  let sign := if n < 0 then "-" else ""
  let a := n.natAbs
  if prec = 0 then sign ++ toString a
  else sign ++ toString (a / 10 ^ prec) ++ "." ++ padZeros (toString (a % 10 ^ prec)) prec

/-- `AssignTablesGreedy` of the table assignment engine.  The
`TableAssignmentAlgorithm` receiver is an empty struct, so it is modelled as
a free function. -/
def AssignTablesGreedy (sq : ℚ → ℚ) (tables : List TableAssignment)
    (groups : List CustomerGroup) : AssignmentResult :=
  if tables.isEmpty then
    { Assignments := [], UnassignedGroups := getGroupIDs groups,
      Message := "No tables available" }
  else if groups.isEmpty then
    { Assignments := [], UnassignedGroups := [],
      Message := "No customer groups to assign" }
  else
    let availableTables := tables.filter (fun t => t.IsAvailable && !t.IsOccupied)
    if availableTables.isEmpty then
      { Assignments := [], UnassignedGroups := getGroupIDs groups,
        Message := "No available tables" }
    else
      let final := (sortGroups groups).foldl (assignStep sq availableTables) {}
      let totalFitness := (final.assignments.map (·.FitnessScore)).sum
      let averageFitness : ℚ :=
        if 0 < final.assignments.length then
          totalFitness / (final.assignments.length : ℚ)
        else 0
      { Assignments := final.assignments,
        UnassignedGroups := final.unassigned,
        TotalFitness := totalFitness,
        AverageFitness := averageFitness,
        TablesUsed := (final.assignments.length : ℤ),
        CustomersServed := customersServedCount groups final.assignments,
        Message := "Assigned " ++ toString final.assignments.length ++
          " tables to " ++ toString groups.length ++ " customer groups (" ++
          fmtFixed 1 ((final.assignments.length : ℚ) / (groups.length : ℚ) * 100) ++
          "% success rate)" }

/-- `AssignTablesOptimal`: per the source, currently a direct delegation to
the greedy path. -/
def AssignTablesOptimal (sq : ℚ → ℚ) (tables : List TableAssignment)
    (groups : List CustomerGroup) : AssignmentResult :=
  AssignTablesGreedy sq tables groups

/-- The two clamped steps at the end of the scoring leave the score in the
unit interval, whatever the incoming score is. -/
theorem finishScore_mem_unit (score : ℚ) (t : TableAssignment) (g : CustomerGroup) :
    0 ≤ finishScore score t g ∧ finishScore score t g ≤ 1 := by
  simp only [finishScore]
  split_ifs <;> constructor <;> linarith

/-- The score is either an early-return `0` or `finishScore` of some value. -/
theorem calculateFitnessScore_eq_cases (sq : ℚ → ℚ) (t : TableAssignment)
    (g : CustomerGroup) :
    calculateFitnessScore sq t g = 0
    ∨ ∃ s, calculateFitnessScore sq t g = finishScore s t g := by
  by_cases hx : t.Capacity < g.Size
  · left
    rw [calculateFitnessScore, if_pos hx]
  · rcases hpx : g.PreferredX with _ | px
    all_goals rcases hpy : g.PreferredY with _ | py
    all_goals simp only [calculateFitnessScore, hpx, hpy, if_neg hx]
    all_goals first
      | exact Or.inr ⟨_, rfl⟩
      | (split_ifs <;> first | exact Or.inl rfl | exact Or.inr ⟨_, rfl⟩)

/-- Shared helper: a strictly positive fitness score implies the table can
hold the group (contrapositive of the hard reject). -/
theorem size_le_capacity_of_fitness_pos (sq : ℚ → ℚ) (t : TableAssignment)
    (g : CustomerGroup) (h : 0 < calculateFitnessScore sq t g) :
    g.Size ≤ t.Capacity := by
  by_contra hlt
  push_neg at hlt
  rw [calculateFitnessScore, if_pos hlt] at h
  exact lt_irrefl 0 h

/-- C4: for every table and every customer group (and every model of
`math.Sqrt`), the fitness score is in `[0, 1]`, and it is `0` whenever the
table's capacity is smaller than the group's size. -/
theorem calculateFitnessScore_range (sq : ℚ → ℚ) (t : TableAssignment)
    (g : CustomerGroup) :
    0 ≤ calculateFitnessScore sq t g ∧ calculateFitnessScore sq t g ≤ 1
    ∧ (t.Capacity < g.Size → calculateFitnessScore sq t g = 0) := by
  have hb : 0 ≤ calculateFitnessScore sq t g ∧ calculateFitnessScore sq t g ≤ 1 := by
    rcases calculateFitnessScore_eq_cases sq t g with h | ⟨s, h⟩
    · rw [h]
      norm_num
    · rw [h]
      exact finishScore_mem_unit s t g
  refine ⟨hb.1, hb.2, fun hlt => ?_⟩
  rw [calculateFitnessScore, if_pos hlt]

/-- Concrete instance of C4: one table of capacity 2 and one group of size 4
(the spec's scenario 4) give score 0, which lies in `[0, 1]`. -/
theorem calculateFitnessScore_range_witness :
    0 ≤ calculateFitnessScore (fun _ => 0) { Capacity := 2 } { Size := 4 }
    ∧ calculateFitnessScore (fun _ => 0) { Capacity := 2 } { Size := 4 } ≤ 1
    ∧ calculateFitnessScore (fun _ => 0) { Capacity := 2 } { Size := 4 } = 0 :=
  ⟨(calculateFitnessScore_range (fun _ => 0) { Capacity := 2 } { Size := 4 }).1,
   (calculateFitnessScore_range (fun _ => 0) { Capacity := 2 } { Size := 4 }).2.1,
   (calculateFitnessScore_range (fun _ => 0) { Capacity := 2 } { Size := 4 }).2.2
     (by decide)⟩

/-- C7 counterexample: with a table priority of `20`, the priority bonus
added to the score is `0.2`, strictly above the claimed `+0.10` cap; the
code computes `priority/10 × 0.1` without capping the bonus itself. -/
theorem priorityBonus_not_capped : 1 / 10 < priorityBonus 20 := by
  norm_num [priorityBonus]

/-- C7 amended: each priority bonus equals `priority/10 × 0.1 = priority/100`
(so it is proportional to `priority / 10`), and it is at most `+0.10`
whenever the priority is at most `10` (the maximum the code's normalization
assumes); the code never caps the bonus itself. -/
theorem priorityBonus_linear_cap (p : ℤ) (hp : p ≤ 10) :
    priorityBonus p = (p : ℚ) / 100 ∧ priorityBonus p ≤ 1 / 10 := by
  constructor
  · unfold priorityBonus
    ring
  · unfold priorityBonus
    have h : (p : ℚ) ≤ 10 := by exact_mod_cast hp
    linarith

/-- Instance of the amended C7 at the maximal assumed priority `10`, where
the bonus reaches exactly `+0.10`. -/
theorem priorityBonus_linear_cap_witness :
    (10 : ℤ) ≤ 10
    ∧ (priorityBonus 10 = (10 : ℚ) / 100 ∧ priorityBonus 10 ≤ 1 / 10) :=
  ⟨by decide, priorityBonus_linear_cap 10 (by decide)⟩

/-- An assignment is sound when its table id comes from a real table, its
customer id from a real group, and the group fits the table. -/
def GoodAssignment (tables : List TableAssignment) (groups : List CustomerGroup)
    (a : Assignment) : Prop :=
  ∃ t ∈ tables, t.ID = a.TableID
    ∧ ∃ g ∈ groups, g.ID = a.CustomerID ∧ g.Size ≤ t.Capacity

/-- Invariant of the inner fold: whenever the accumulated best score is
positive, the accumulated table is a real candidate, carries exactly its
fitness score, and is not yet assigned. -/
theorem findBest_fold_spec (sq : ℚ → ℚ) (ids : List String) (g : CustomerGroup)
    (S : List TableAssignment) :
    ∀ (l : List TableAssignment) (acc : ℚ × TableAssignment),
      (∀ x ∈ l, x ∈ S) →
      (0 < acc.1 →
        acc.2 ∈ S ∧ acc.1 = calculateFitnessScore sq acc.2 g ∧ acc.2.ID ∉ ids) →
      0 < (l.foldl (findBestStep sq ids g) acc).1 →
      (l.foldl (findBestStep sq ids g) acc).2 ∈ S
      ∧ (l.foldl (findBestStep sq ids g) acc).1
          = calculateFitnessScore sq (l.foldl (findBestStep sq ids g) acc).2 g
      ∧ (l.foldl (findBestStep sq ids g) acc).2.ID ∉ ids := by
  intro l
  induction l with
  | nil => exact fun acc _ hacc hpos => hacc hpos
  | cons x xs ih =>
    intro acc hsub hacc hpos
    simp only [List.foldl_cons] at hpos ⊢
    refine ih (findBestStep sq ids g acc x) (fun y hy => hsub y (by simp [hy])) ?_ hpos
    intro hpos'
    simp only [findBestStep] at hpos' ⊢
    split_ifs at hpos' ⊢ with h1 h2
    · exact hacc hpos'
    · exact ⟨hsub x (by simp), rfl, h1⟩
    · exact hacc hpos'

/-- Specification of `findBestTable` when it returns a positive score. -/
theorem findBestTable_spec (sq : ℚ → ℚ) (avail : List TableAssignment)
    (ids : List String) (g : CustomerGroup)
    (h : 0 < (findBestTable sq avail ids g).1) :
    (findBestTable sq avail ids g).2 ∈ avail
    ∧ (findBestTable sq avail ids g).1
        = calculateFitnessScore sq (findBestTable sq avail ids g).2 g
    ∧ (findBestTable sq avail ids g).2.ID ∉ ids :=
  findBest_fold_spec sq ids g avail avail ((-1 : ℚ), ({} : TableAssignment))
    (fun _ hx => hx) (fun hpos => absurd hpos (by norm_num)) h

/-- Invariant of the outer greedy loop: table ids of the assignments are
pairwise distinct, recorded in `assignedIDs`, and every assignment is sound. -/
theorem assignLoop_inv (sq : ℚ → ℚ) (tables : List TableAssignment)
    (groups : List CustomerGroup) (avail : List TableAssignment)
    (havail : ∀ t ∈ avail, t ∈ tables) :
    ∀ (gs : List CustomerGroup) (st : AssignState),
      (∀ g ∈ gs, g ∈ groups) →
      ((st.assignments.map (·.TableID)).Nodup
        ∧ (∀ a ∈ st.assignments, a.TableID ∈ st.assignedIDs)
        ∧ (∀ a ∈ st.assignments, GoodAssignment tables groups a)) →
      (((gs.foldl (assignStep sq avail) st).assignments.map (·.TableID)).Nodup
        ∧ (∀ a ∈ (gs.foldl (assignStep sq avail) st).assignments,
            a.TableID ∈ (gs.foldl (assignStep sq avail) st).assignedIDs)
        ∧ (∀ a ∈ (gs.foldl (assignStep sq avail) st).assignments,
            GoodAssignment tables groups a)) := by
  intro gs
  induction gs with
  | nil => exact fun st _ h => h
  | cons g gs ih =>
    intro st hgs hst
    simp only [List.foldl_cons]
    refine ih (assignStep sq avail st g) (fun x hx => hgs x (by simp [hx])) ?_
    obtain ⟨hnd, hids, hgood⟩ := hst
    by_cases hbest : 0 < (findBestTable sq avail st.assignedIDs g).1
    · obtain ⟨hmem, hscore, hnotin⟩ := findBestTable_spec sq avail st.assignedIDs g hbest
      simp only [assignStep, if_pos hbest]
      refine ⟨?_, ?_, ?_⟩
      · simp only [List.map_append, List.map_cons, List.map_nil]
        rw [List.nodup_append]
        refine ⟨hnd, List.nodup_singleton _, ?_⟩
        intro tid h1 h2
        simp only [List.mem_singleton] at h2
        subst h2
        rcases List.mem_map.mp h1 with ⟨a, ha, htid⟩
        exact hnotin (htid ▸ hids a ha)
      · intro a ha
        rcases List.mem_append.mp ha with h | h
        · exact List.mem_append_left _ (hids a h)
        · simp only [List.mem_singleton] at h
          subst h
          exact List.mem_append_right _ (by simp)
      · intro a ha
        rcases List.mem_append.mp ha with h | h
        · exact hgood a h
        · simp only [List.mem_singleton] at h
          subst h
          exact ⟨(findBestTable sq avail st.assignedIDs g).2,
            havail _ hmem, rfl, g, hgs g (by simp), rfl,
            size_le_capacity_of_fitness_pos sq _ g (hscore ▸ hbest)⟩
    · simp only [assignStep, if_neg hbest]
      exact ⟨hnd, hids, hgood⟩

/-- C5: in the result of `AssignTablesGreedy`, no table id appears in more
than one assignment, and every assignment pairs a group of the input with a
table of the input whose capacity is at least the group's size. -/
theorem AssignTablesGreedy_sound (sq : ℚ → ℚ) (tables : List TableAssignment)
    (groups : List CustomerGroup) :
    ((AssignTablesGreedy sq tables groups).Assignments.map (·.TableID)).Nodup
    ∧ ∀ a ∈ (AssignTablesGreedy sq tables groups).Assignments,
        GoodAssignment tables groups a := by
  simp only [AssignTablesGreedy]
  split_ifs with h1 h2 h3 h4
  · simp
  · simp
  · simp
  all_goals
    have hinv := assignLoop_inv sq tables groups
      (tables.filter (fun t => t.IsAvailable && !t.IsOccupied))
      (fun t ht => (List.mem_filter.mp ht).1)
      (sortGroups groups) {}
      (fun g hg => (List.perm_insertionSort _ groups).mem_iff.mp hg)
      ⟨by simp, by simp, by simp⟩
  all_goals exact ⟨hinv.1, hinv.2.2⟩

/-- Instance of C5 on a concrete restaurant: two available tables, two
groups. -/
theorem AssignTablesGreedy_sound_witness :
    (((AssignTablesGreedy (fun _ => 0)
        [{ ID := "t1", Code := "M1", Capacity := 4, IsAvailable := true },
         { ID := "t2", Code := "M2", Capacity := 2, IsAvailable := true }]
        [{ ID := "g1", Size := 2 }, { ID := "g2", Size := 3 }]).Assignments.map
          (·.TableID)).Nodup)
    ∧ ∀ a ∈ (AssignTablesGreedy (fun _ => 0)
        [{ ID := "t1", Code := "M1", Capacity := 4, IsAvailable := true },
         { ID := "t2", Code := "M2", Capacity := 2, IsAvailable := true }]
        [{ ID := "g1", Size := 2 }, { ID := "g2", Size := 3 }]).Assignments,
        GoodAssignment
          [{ ID := "t1", Code := "M1", Capacity := 4, IsAvailable := true },
           { ID := "t2", Code := "M2", Capacity := 2, IsAvailable := true }]
          [{ ID := "g1", Size := 2 }, { ID := "g2", Size := 3 }] a :=
  AssignTablesGreedy_sound (fun _ => 0)
    [{ ID := "t1", Code := "M1", Capacity := 4, IsAvailable := true },
     { ID := "t2", Code := "M2", Capacity := 2, IsAvailable := true }]
    [{ ID := "g1", Size := 2 }, { ID := "g2", Size := 3 }]

/-- C9: the "optimal" mode returns exactly the greedy result on every input:
it is a direct delegation to the greedy path. -/
theorem AssignTablesOptimal_delegates (sq : ℚ → ℚ)
    (tables : List TableAssignment) (groups : List CustomerGroup) :
    AssignTablesOptimal sq tables groups = AssignTablesGreedy sq tables groups :=
  rfl

/-! ## Knapsack inventory optimizer (internal/algorithms, KnapsackAlgorithm) -/

/-- `InventoryItem` struct. -/
structure InventoryItem where
  ID : String := ""
  Name : String := ""
  Weight : ℚ := 0
  Value : ℚ := 0
  Cost : ℚ := 0
  DemandScore : ℚ := 0
deriving DecidableEq

/-- `KnapsackResult` struct.  Defaults are Go zero values. -/
structure KnapsackResult where
  SelectedItems : List InventoryItem := []
  TotalValue : ℚ := 0
  TotalWeight : ℚ := 0
  TotalCost : ℚ := 0
  CapacityUsed : ℚ := 0
  CapacityAvailable : ℚ := 0
  Efficiency : ℚ := 0
  Message : String := ""
deriving DecidableEq

/-- Go's `int(x)` conversion of a `float64`: truncation toward zero. -/
def goTrunc (q : ℚ) : ℤ :=
  if 0 ≤ q then Rat.floor q else -(Rat.floor (-q))

/-- Indexing a Go `[]float64` slice by an `int`.  Out-of-range access panics
in Go; it is totalized to `0` here and all reachable accesses are in range. -/
def zget (l : List ℚ) (i : ℤ) : ℚ :=
  if 0 ≤ i then l.getD i.toNat 0 else 0

/-- Indexing a Go `[]bool` slice by an `int`, totalized to `false`. -/
def zgetB (l : List Bool) (i : ℤ) : Bool :=
  if 0 ≤ i then l.getD i.toNat false else false

/-- Writing a Go `[]float64` slice cell, totalized to a no-op out of range. -/
def zset (l : List ℚ) (i : ℤ) (v : ℚ) : List ℚ :=
  if 0 ≤ i then l.set i.toNat v else l

/-- Writing a Go `[]bool` slice cell, totalized to a no-op out of range. -/
def zsetB (l : List Bool) (i : ℤ) (v : Bool) : List Bool :=
  if 0 ≤ i then l.set i.toNat v else l

/-- The index sequence of the Go loop `for w := hi; w >= lo; w--`. -/
def wsList (hi lo : ℤ) : List ℤ :=
  (List.range (hi - lo + 1).toNat).map (fun k => hi - (k : ℤ))

/-- One item's pass over the weight table of `SolveKnapsack01`: iterate `w`
from `capacityInt` down to the item's scaled weight, improving `dp[w]` from
`dp[w-weightInt] + value` and marking the item's `selected` row. -/
def dpItemPass (capacityInt weightInt : ℤ) (value : ℚ) (dp : List ℚ) :
    List ℚ × List Bool :=
  (wsList capacityInt weightInt).foldl
    (fun st w =>
      if zget st.1 w < zget st.1 (w - weightInt) + value then
        (zset st.1 w (zget st.1 (w - weightInt) + value), zsetB st.2 w true)
      else st)
    (dp, List.replicate (capacityInt + 1).toNat false)

/-- The full DP build of `SolveKnapsack01`: the value table and the
per-item `selected` rows, in item order. -/
def dpBuild (capacityInt : ℤ) (items : List InventoryItem) :
    List ℚ × List (List Bool) :=
  items.foldl
    (fun st item =>
      let pass := dpItemPass capacityInt (goTrunc (item.Weight * 100)) item.Value st.1
      (pass.1, st.2 ++ [pass.2]))
    (List.replicate (capacityInt + 1).toNat 0, [])

/-- Solution reconstruction of `SolveKnapsack01`, walking the items from the
last to the first (the argument list is the reversed `items.zip rows`): take
item `i` when `w >= int(items[i].Weight*100) && selected[i][w]`, subtracting
its scaled weight from `w`. -/
def reconstructRev : List (InventoryItem × List Bool) → ℤ → List InventoryItem
  | [], _ => []
  | (item, row) :: rest, w =>
    if goTrunc (item.Weight * 100) ≤ w ∧ zgetB row w then
      item :: reconstructRev rest (w - goTrunc (item.Weight * 100))
    else
      reconstructRev rest w

/-- `SolveKnapsack01`: the exact 0/1 knapsack by dynamic programming over the
capacity discretized to hundredths. -/
def SolveKnapsack01 (items : List InventoryItem) (capacity : ℚ) : KnapsackResult :=
  if items.isEmpty then
    { SelectedItems := [], CapacityAvailable := capacity,
      Message := "No items provided" }
  else if capacity ≤ 0 then
    { SelectedItems := [], CapacityAvailable := capacity,
      Message := "Invalid capacity (must be > 0)" }
  else
    let capacityInt := goTrunc (capacity * 100)
    let build := dpBuild capacityInt items
    let taken := reconstructRev ((items.zip build.2).reverse) capacityInt
    let totalWeight := (taken.map (·.Weight)).sum
    let totalValue := (taken.map (·.Value)).sum
    let totalCost := (taken.map (·.Cost)).sum
    let efficiency := if 0 < totalWeight then totalValue / totalWeight else 0
    { SelectedItems := taken.reverse,
      TotalValue := totalValue,
      TotalWeight := totalWeight,
      TotalCost := totalCost,
      CapacityUsed := totalWeight,
      CapacityAvailable := capacity - totalWeight,
      Efficiency := efficiency,
      Message := "Selected " ++ toString taken.reverse.length ++
        " items with total value " ++ fmtFixed 2 totalValue ++
        " and weight " ++ fmtFixed 2 totalWeight ++ "/" ++ fmtFixed 2 capacity }

/-- The value/weight ratio computed by `SolveKnapsackGreedy`:
`ratio := 0.0; if item.Weight > 0 { ratio = item.Value / item.Weight }`. -/
def ratioOf (it : InventoryItem) : ℚ :=
  if 0 < it.Weight then it.Value / it.Weight else 0

/-- The `ItemWithRatio` wrapper of `SolveKnapsackGreedy`. -/
structure ItemWithRatio where
  Item : InventoryItem
  Ratio : ℚ
  OriginalIndex : ℤ
deriving DecidableEq

/-- Build the `ItemWithRatio` list with original indices. -/
def itemsWithRatioOf (items : List InventoryItem) : List ItemWithRatio :=
  items.enum.map (fun p =>
    { Item := p.2, Ratio := ratioOf p.2, OriginalIndex := (p.1 : ℤ) })

/-- Sort by value/weight ratio, descending. -/
def sortByRatio (l : List ItemWithRatio) : List ItemWithRatio :=
  List.insertionSort (fun a b => b.Ratio ≤ a.Ratio) l

/-- Running accumulator of the greedy selection loop. -/
structure GreedyAcc where
  selectedItems : List InventoryItem := []
  totalValue : ℚ := 0
  totalWeight : ℚ := 0
  totalCost : ℚ := 0
  remainingCapacity : ℚ := 0
deriving DecidableEq

/-- The selection loop of `SolveKnapsackGreedy`: stop when capacity is
exhausted; take a whole item while it fits; otherwise take the feasible
fraction of the item and stop. -/
def greedyGo : List InventoryItem → GreedyAcc → GreedyAcc
  | [], acc => acc
  | item :: rest, acc =>
    if acc.remainingCapacity ≤ 0 then acc
    else if item.Weight ≤ acc.remainingCapacity then
      greedyGo rest
        { selectedItems := acc.selectedItems ++ [item],
          totalValue := acc.totalValue + item.Value,
          totalWeight := acc.totalWeight + item.Weight,
          totalCost := acc.totalCost + item.Cost,
          remainingCapacity := acc.remainingCapacity - item.Weight }
    else
      let fraction := acc.remainingCapacity / item.Weight
      { selectedItems := acc.selectedItems ++
          [{ item with Weight := acc.remainingCapacity,
                       Value := item.Value * fraction,
                       Cost := item.Cost * fraction }],
        totalValue := acc.totalValue + item.Value * fraction,
        totalWeight := acc.totalWeight + acc.remainingCapacity,
        totalCost := acc.totalCost + item.Cost * fraction,
        remainingCapacity := 0 }

/-- `SolveKnapsackGreedy`: the greedy / fractional approximation. -/
def SolveKnapsackGreedy (items : List InventoryItem) (capacity : ℚ) : KnapsackResult :=
  if items.isEmpty then
    { SelectedItems := [], CapacityAvailable := capacity,
      Message := "No items provided" }
  else if capacity ≤ 0 then
    { SelectedItems := [], CapacityAvailable := capacity,
      Message := "Invalid capacity (must be > 0)" }
  else
    let sorted := sortByRatio (itemsWithRatioOf items)
    let acc := greedyGo (sorted.map (·.Item)) { remainingCapacity := capacity }
    let efficiency := if 0 < acc.totalWeight then acc.totalValue / acc.totalWeight else 0
    { SelectedItems := acc.selectedItems,
      TotalValue := acc.totalValue,
      TotalWeight := acc.totalWeight,
      TotalCost := acc.totalCost,
      CapacityUsed := acc.totalWeight,
      CapacityAvailable := acc.remainingCapacity,
      Efficiency := efficiency,
      Message := "Selected " ++ toString acc.selectedItems.length ++
        " items (greedy) with total value " ++ fmtFixed 2 acc.totalValue ++
        " and weight " ++ fmtFixed 2 acc.totalWeight ++ "/" ++ fmtFixed 2 capacity }

/-- `OptimizeInventory` of the knapsack engine (algorithms package): filter
by minimum demand score, then delegate to the greedy solver. -/
def OptimizeInventory (items : List InventoryItem) (maxCapacity minDemandScore : ℚ) :
    KnapsackResult :=
  let filteredItems := items.filter (fun item => minDemandScore ≤ item.DemandScore)
  if filteredItems.isEmpty then
    { SelectedItems := [], CapacityAvailable := maxCapacity,
      Message := "No items meet the minimum demand score of " ++
        fmtFixed 2 minDemandScore }
  else
    SolveKnapsackGreedy filteredItems maxCapacity

/-- `OptimizeInventoryRequest` of the service layer. -/
structure OptimizeInventoryRequest where
  Items : List InventoryItem := []
  MaxCapacity : ℚ := 0
  MinDemandScore : ℚ := 0
  Algorithm : String := ""
deriving DecidableEq

/-- `OptimizeInventoryResponse` of the service layer. -/
structure OptimizeInventoryResponse where
  Success : Bool := false
  Result : KnapsackResult := {}
  Message : String := ""
deriving DecidableEq

/-- `OptimizationService.OptimizeInventory` of the service layer
(internal/service/optimization_service.go): validates the request, clamps a
negative `MinDemandScore` to `0`, and dispatches on the algorithm name. -/
def serviceOptimizeInventory (req : OptimizeInventoryRequest) :
    OptimizeInventoryResponse :=
  if req.Items.isEmpty then
    { Success := false, Message := "No items provided" }
  else if req.MaxCapacity ≤ 0 then
    { Success := false, Message := "Invalid capacity (must be > 0)" }
  else
    let minDemandScore := if req.MinDemandScore < 0 then 0 else req.MinDemandScore
    if req.Algorithm = "dp" then
      let result := SolveKnapsack01 req.Items req.MaxCapacity
      { Success := true, Result := result,
        Message := "Inventory optimized: " ++
          toString result.SelectedItems.length ++ " items selected" }
    else if req.Algorithm = "greedy" ∨ req.Algorithm = "" then
      let result :=
        if 0 < minDemandScore then
          OptimizeInventory req.Items req.MaxCapacity minDemandScore
        else
          SolveKnapsackGreedy req.Items req.MaxCapacity
      { Success := true, Result := result,
        Message := "Inventory optimized: " ++
          toString result.SelectedItems.length ++ " items selected" }
    else
      { Success := false,
        Message := "Invalid algorithm. Supported: 'dp' (dynamic programming) or 'greedy'" }

/-- An item whose demand score is negative: it passes the filter at a
negative threshold but not at threshold `0`. -/
def itemLowDemand : InventoryItem :=
  { ID := "x", Name := "x", Weight := 1, Value := 1, Cost := 0,
    DemandScore := -(1 / 2) }

/-- C8 counterexample: the algorithm-level `OptimizeInventory` does not clamp
a negative threshold: with threshold `-1` the item of demand score `-0.5` is
selected (total value `1`), with threshold `0` nothing is (total value `0`). -/
theorem OptimizeInventory_no_clamp :
    (OptimizeInventory [itemLowDemand] 10 (-1)).TotalValue ≠
      (OptimizeInventory [itemLowDemand] 10 0).TotalValue := by
  norm_num [OptimizeInventory, itemLowDemand, SolveKnapsackGreedy, sortByRatio,
    itemsWithRatioOf, ratioOf, greedyGo, List.insertionSort, List.orderedInsert,
    List.filter, List.enum, List.enumFrom]

/-- C8 amended: the clamping lives one layer up: the service-layer
`OptimizeInventory` replaces a negative `MinDemandScore` with `0` before
dispatching, so at the service level a negative threshold gives the same
response as threshold `0`. -/
theorem serviceOptimizeInventory_clamps (items : List InventoryItem)
    (cap t : ℚ) (alg : String) (ht : t < 0) :
    serviceOptimizeInventory ⟨items, cap, t, alg⟩
      = serviceOptimizeInventory ⟨items, cap, 0, alg⟩ := by
  simp only [serviceOptimizeInventory, if_pos ht, if_neg (lt_irrefl (0 : ℚ))]

/-- Instance of the amended C8 at threshold `-1`. -/
theorem serviceOptimizeInventory_clamps_witness :
    (-1 : ℚ) < 0 ∧
    serviceOptimizeInventory ⟨[itemLowDemand], 5, -1, ""⟩
      = serviceOptimizeInventory ⟨[itemLowDemand], 5, 0, ""⟩ :=
  ⟨by norm_num, serviceOptimizeInventory_clamps [itemLowDemand] 5 (-1) "" (by norm_num)⟩

/-- `Rat.floor` agrees with the floor of the `FloorRing` instance. -/
theorem ratFloor_eq_intFloor (q : ℚ) : Rat.floor q = ⌊q⌋ := by
  rw [Rat.floor_def', Rat.floor_def]

theorem goTrunc_nonneg (q : ℚ) (h : 0 ≤ q) : 0 ≤ goTrunc q := by
  rw [goTrunc, if_pos h, ratFloor_eq_intFloor]
  exact Int.floor_nonneg.mpr h

theorem goTrunc_le (q : ℚ) (h : 0 ≤ q) : (goTrunc q : ℚ) ≤ q := by
  rw [goTrunc, if_pos h, ratFloor_eq_intFloor]
  exact Int.floor_le q

/-- On a value that is an exact integer (denominator 1), Go's truncation is
the identity. -/
theorem goTrunc_of_den_one (q : ℚ) (hq : 0 ≤ q) (h : q.den = 1) :
    (goTrunc q : ℚ) = q := by
  rw [goTrunc, if_pos hq, ratFloor_eq_intFloor]
  have h2 : ((q.num : ℚ)) = q := (Rat.den_eq_one_iff q).mp h
  rw [← h2, Int.floor_intCast]

/-- The reconstruction walk never takes more scaled weight than the budget
`w` it starts with. -/
theorem reconstructRev_scaled_weight_le (pairs : List (InventoryItem × List Bool)) :
    ∀ w : ℤ, 0 ≤ w → (∀ p ∈ pairs, 0 ≤ goTrunc (p.1.Weight * 100)) →
      ((reconstructRev pairs w).map (fun it => goTrunc (it.Weight * 100))).sum ≤ w := by
  induction pairs with
  | nil =>
    intro w hw _
    simpa [reconstructRev] using hw
  | cons p rest ih =>
    intro w hw hpos
    obtain ⟨item, row⟩ := p
    simp only [reconstructRev]
    split_ifs with htake
    · simp only [List.map_cons, List.sum_cons]
      have hwi : 0 ≤ goTrunc (item.Weight * 100) := hpos (item, row) (by simp)
      have h1 := ih (w - goTrunc (item.Weight * 100)) (by omega)
        (fun x hx => hpos x (by simp [hx]))
      omega
    · exact ih w hw (fun x hx => hpos x (by simp [hx]))

/-- The reconstruction takes a sublist of the walked items. -/
theorem reconstructRev_sublist (pairs : List (InventoryItem × List Bool)) :
    ∀ w : ℤ, List.Sublist (reconstructRev pairs w) (pairs.map Prod.fst) := by
  induction pairs with
  | nil =>
    intro w
    simp [reconstructRev]
  | cons p rest ih =>
    intro w
    obtain ⟨item, row⟩ := p
    simp only [reconstructRev, List.map_cons]
    split_ifs
    · exact (ih _).cons₂ _
    · exact (ih w).cons _

/-- The first components of a zip form a sublist of the first list. -/
theorem zip_map_fst_sublist {α β : Type} (l1 : List α) (l2 : List β) :
    List.Sublist ((l1.zip l2).map Prod.fst) l1 := by
  induction l1 generalizing l2 with
  | nil => simp
  | cons x l1 ih =>
    cases l2 with
    | nil => simp
    | cons y l2 => simpa using (ih l2).cons₂ x

/-- With exact-hundredth weights, the scaled weight sum is `100 ×` the real
weight sum. -/
theorem scaled_weight_sum (l : List InventoryItem)
    (h : ∀ it ∈ l, (goTrunc (it.Weight * 100) : ℚ) = it.Weight * 100) :
    (((l.map (fun it => goTrunc (it.Weight * 100))).sum : ℤ) : ℚ)
      = (l.map (·.Weight)).sum * 100 := by
  induction l with
  | nil => simp
  | cons x l ih =>
    simp only [List.map_cons, List.sum_cons, Int.cast_add]
    rw [h x (by simp), ih (fun y hy => h y (by simp [hy]))]
    ring

/-- Core weight bound of the DP main branch, for arbitrary `selected` rows:
with nonnegative exact-hundredth weights and a nonnegative capacity, the
reconstructed selection's real weight is at most the capacity. -/
theorem reconstruct_weight_le_cap (items : List InventoryItem) (capacity : ℚ)
    (rows : List (List Bool))
    (hw : ∀ it ∈ items, 0 ≤ it.Weight ∧ (it.Weight * 100).den = 1)
    (hcap : 0 ≤ capacity) :
    ((reconstructRev ((items.zip rows).reverse) (goTrunc (capacity * 100))).map
      (·.Weight)).sum ≤ capacity := by
  have hcap100 : (0 : ℚ) ≤ capacity * 100 := by linarith
  have hproj : ∀ p ∈ (items.zip rows).reverse, p.1 ∈ items := by
    intro p hp
    rw [List.mem_reverse] at hp
    obtain ⟨a, b⟩ := p
    exact (List.of_mem_zip hp).1
  have hsub : ∀ it ∈ reconstructRev ((items.zip rows).reverse) (goTrunc (capacity * 100)),
      it ∈ items := by
    intro it hit
    have h1 := (reconstructRev_sublist _ (goTrunc (capacity * 100))).subset hit
    rw [List.map_reverse, List.mem_reverse] at h1
    exact (zip_map_fst_sublist items rows).subset h1
  have hscaled := reconstructRev_scaled_weight_le ((items.zip rows).reverse)
    (goTrunc (capacity * 100)) (goTrunc_nonneg _ hcap100)
    (fun p hp => goTrunc_nonneg _ (by
      have := (hw p.1 (hproj p hp)).1
      positivity))
  have hexact : ∀ it ∈ reconstructRev ((items.zip rows).reverse) (goTrunc (capacity * 100)),
      (goTrunc (it.Weight * 100) : ℚ) = it.Weight * 100 := by
    intro it hit
    have h1 := hw it (hsub it hit)
    exact goTrunc_of_den_one _ (mul_nonneg h1.1 (by norm_num)) h1.2
  have hmain : ((reconstructRev ((items.zip rows).reverse) (goTrunc (capacity * 100))).map
      (·.Weight)).sum * 100 ≤ capacity * 100 := by
    rw [← scaled_weight_sum _ hexact]
    calc (((reconstructRev ((items.zip rows).reverse) (goTrunc (capacity * 100))).map
          (fun it => goTrunc (it.Weight * 100))).sum : ℚ)
        ≤ ((goTrunc (capacity * 100) : ℤ) : ℚ) := by exact_mod_cast hscaled
      _ ≤ capacity * 100 := goTrunc_le _ hcap100
  linarith

/-- C2 amended: for nonnegative weights that are exact multiples of `0.01`
and a nonnegative capacity, `SolveKnapsack01` satisfies
`TotalWeight ≤ capacity`.  (Without the exactness restriction the claim
fails: the discretization truncates scaled weights downward.) -/
theorem SolveKnapsack01_weight_le_capacity (items : List InventoryItem)
    (capacity : ℚ)
    (hw : ∀ it ∈ items, 0 ≤ it.Weight ∧ (it.Weight * 100).den = 1)
    (hcap : 0 ≤ capacity) :
    (SolveKnapsack01 items capacity).TotalWeight ≤ capacity := by
  simp only [SolveKnapsack01]
  split_ifs with h1 h2 h3
  · simpa using hcap
  · simpa using hcap
  all_goals exact reconstruct_weight_le_cap items capacity _ hw hcap

/-- An item whose weight `0.019` truncates to one scaled unit. -/
def itemTrunc : InventoryItem :=
  { ID := "a", Name := "a", Weight := 19 / 1000, Value := 1 }

/-- C2 counterexample: with the item of weight `0.019` and capacity `0.01`
(both scale-truncated to one unit), the DP selects the item and reports
`TotalWeight = 0.019 > 0.01 = capacity`. -/
theorem SolveKnapsack01_weight_overflow :
    ¬ (SolveKnapsack01 [itemTrunc] (1 / 100)).TotalWeight ≤ 1 / 100 := by
  norm_num [SolveKnapsack01, itemTrunc, dpBuild, dpItemPass, wsList, goTrunc,
    Rat.floor_def', zget, zgetB, zset, zsetB, reconstructRev,
    List.range_succ, List.replicate, List.foldl]

/-- The spec's scenario-3 items at hundredth scale. -/
def itemsScenario : List InventoryItem :=
  [{ ID := "i1", Name := "A", Weight := 1 / 50, Value := 3 },
   { ID := "i2", Name := "B", Weight := 3 / 100, Value := 4 },
   { ID := "i3", Name := "C", Weight := 1 / 25, Value := 5 }]

/-- Instance of the amended C2 on the scenario items at capacity `0.05`. -/
theorem SolveKnapsack01_weight_le_capacity_witness :
    (∀ it ∈ itemsScenario, 0 ≤ it.Weight ∧ (it.Weight * 100).den = 1)
    ∧ (0 : ℚ) ≤ 1 / 20
    ∧ (SolveKnapsack01 itemsScenario (1 / 20)).TotalWeight ≤ 1 / 20 := by
  have h : ∀ it ∈ itemsScenario, 0 ≤ it.Weight ∧ (it.Weight * 100).den = 1 := by
    intro it hit
    fin_cases hit <;> constructor <;> norm_num [itemsScenario]
  exact ⟨h, by norm_num,
    SolveKnapsack01_weight_le_capacity itemsScenario (1 / 20) h (by norm_num)⟩

/-- The value gained by the greedy selection loop from a given remaining
capacity (proof-side restatement of `greedyGo`'s value accumulation). -/
def gval : List InventoryItem → ℚ → ℚ
  | [], _ => 0
  | item :: rest, rc =>
    if rc ≤ 0 then 0
    else if item.Weight ≤ rc then item.Value + gval rest (rc - item.Weight)
    else item.Value * (rc / item.Weight)

theorem gval_stop (x : InventoryItem) (rest : List InventoryItem) (C : ℚ)
    (h : C ≤ 0) : gval (x :: rest) C = 0 := by
  simp [gval, h]

theorem gval_take (x : InventoryItem) (rest : List InventoryItem) (C : ℚ)
    (h1 : ¬ C ≤ 0) (h2 : x.Weight ≤ C) :
    gval (x :: rest) C = x.Value + gval rest (C - x.Weight) := by
  simp [gval, h1, h2]

theorem gval_frac (x : InventoryItem) (rest : List InventoryItem) (C : ℚ)
    (h1 : ¬ C ≤ 0) (h2 : ¬ x.Weight ≤ C) :
    gval (x :: rest) C = x.Value * (C / x.Weight) := by
  simp [gval, h1, h2]

/-- The greedy loop's accumulated value is the incoming value plus `gval` of
the remaining capacity. -/
theorem greedyGo_totalValue (l : List InventoryItem) :
    ∀ acc : GreedyAcc,
      (greedyGo l acc).totalValue = acc.totalValue + gval l acc.remainingCapacity := by
  induction l with
  | nil => intro acc; simp [greedyGo, gval]
  | cons item rest ih =>
    intro acc
    simp only [greedyGo, gval]
    split_ifs with h1 h2
    · simp
    · rw [ih]
      simp only []
      ring
    · simp only []

/-- When every item's value is at most `r` times its weight, the greedy gain
from capacity `C` is at most `r * C`. -/
theorem gval_le_ratio_mul (r : ℚ) (hr : 0 ≤ r) :
    ∀ (l : List InventoryItem) (C : ℚ), 0 ≤ C →
      (∀ it ∈ l, 0 < it.Weight ∧ it.Value ≤ r * it.Weight) →
      gval l C ≤ r * C := by
  intro l
  induction l with
  | nil =>
    intro C hC _
    simpa [gval] using mul_nonneg hr hC
  | cons x rest ih =>
    intro C hC hl
    obtain ⟨hxw, hxv⟩ := hl x (by simp)
    by_cases h1 : C ≤ 0
    · rw [gval_stop x rest C h1]
      exact mul_nonneg hr hC
    · by_cases h2 : x.Weight ≤ C
      · rw [gval_take x rest C h1 h2]
        have h3 := ih (C - x.Weight) (by linarith) (fun y hy => hl y (by simp [hy]))
        have h4 : r * (C - x.Weight) = r * C - r * x.Weight := by ring
        linarith
      · rw [gval_frac x rest C h1 h2]
        have hCw : 0 ≤ C / x.Weight := div_nonneg hC (le_of_lt hxw)
        have h4 : x.Value * (C / x.Weight) ≤ (r * x.Weight) * (C / x.Weight) :=
          mul_le_mul_of_nonneg_right hxv hCw
        have h5 : (r * x.Weight) * (C / x.Weight) = r * C := by
          field_simp
          ring
        linarith

/-- Enlarging the capacity from `C1` to `C2` gains the greedy at most
`r * (C2 - C1)` when every ratio is at most `r`. -/
theorem gval_lipschitz (r : ℚ) (hr : 0 ≤ r) :
    ∀ (l : List InventoryItem) (C1 C2 : ℚ), 0 ≤ C1 → C1 ≤ C2 →
      (∀ it ∈ l, 0 < it.Weight ∧ 0 ≤ it.Value ∧ it.Value ≤ r * it.Weight) →
      gval l C2 ≤ gval l C1 + r * (C2 - C1) := by
  intro l
  induction l with
  | nil =>
    intro C1 C2 h1 h2 _
    have := mul_nonneg hr (by linarith : (0:ℚ) ≤ C2 - C1)
    simp only [gval]
    linarith
  | cons x rest ih =>
    intro C1 C2 hC1 hle hl
    obtain ⟨hxw, hxv0, hxv⟩ := hl x (by simp)
    have hrest : ∀ it ∈ rest, 0 < it.Weight ∧ 0 ≤ it.Value ∧ it.Value ≤ r * it.Weight :=
      fun y hy => hl y (by simp [hy])
    have hrestB : ∀ it ∈ rest, 0 < it.Weight ∧ it.Value ≤ r * it.Weight :=
      fun y hy => ⟨(hrest y hy).1, (hrest y hy).2.2⟩
    by_cases h1 : C2 ≤ 0
    · have hC2 : C2 = 0 := le_antisymm h1 (le_trans hC1 hle)
      have hC1' : C1 = 0 := le_antisymm (hC2 ▸ hle) hC1
      rw [hC2, hC1', gval_stop x rest 0 (by norm_num)]
      simp
    · by_cases h2 : x.Weight ≤ C2
      · by_cases h3 : x.Weight ≤ C1
        · have hC1pos : 0 < C1 := lt_of_lt_of_le hxw h3
          rw [gval_take x rest C2 h1 h2, gval_take x rest C1 (by linarith) h3]
          have hih := ih (C1 - x.Weight) (C2 - x.Weight) (by linarith) (by linarith) hrest
          have he : r * (C2 - x.Weight - (C1 - x.Weight)) = r * (C2 - C1) := by ring
          linarith
        · push_neg at h3
          have hB := gval_le_ratio_mul r hr rest (C2 - x.Weight) (by linarith) hrestB
          rw [gval_take x rest C2 h1 h2]
          by_cases h4 : C1 ≤ 0
          · have hC1' : C1 = 0 := le_antisymm h4 hC1
            rw [hC1', gval_stop x rest 0 (by norm_num)]
            have he : r * (C2 - x.Weight) = r * C2 - r * x.Weight := by ring
            have he2 : r * (C2 - 0) = r * C2 := by ring
            linarith
          · push_neg at h4
            rw [gval_frac x rest C1 (by linarith) (by linarith)]
            have hw0 : x.Weight ≠ 0 := ne_of_gt hxw
            have hprod : 0 ≤ (r * x.Weight - x.Value) * (x.Weight - C1) :=
              mul_nonneg (by linarith) (by linarith)
            have h6 : x.Value * (C1 / x.Weight) * x.Weight = x.Value * C1 := by
              field_simp
            have hkey : x.Value + r * (C2 - x.Weight)
                ≤ x.Value * (C1 / x.Weight) + r * (C2 - C1) := by
              rw [← sub_nonneg]
              have h7 : (x.Value * (C1 / x.Weight) + r * (C2 - C1)
                  - (x.Value + r * (C2 - x.Weight))) * x.Weight
                  = (r * x.Weight - x.Value) * (x.Weight - C1) := by
                field_simp
                ring
              nlinarith [hprod, hxw]
            linarith
      · push_neg at h2
        rw [gval_frac x rest C2 h1 (not_le.mpr h2)]
        by_cases h4 : C1 ≤ 0
        · have hC1' : C1 = 0 := le_antisymm h4 hC1
          rw [hC1', gval_stop x rest 0 (by norm_num)]
          have hCw : 0 ≤ C2 / x.Weight := div_nonneg (by linarith) (le_of_lt hxw)
          have h5 : x.Value * (C2 / x.Weight) ≤ (r * x.Weight) * (C2 / x.Weight) :=
            mul_le_mul_of_nonneg_right hxv hCw
          have h6 : (r * x.Weight) * (C2 / x.Weight) = r * C2 := by
            field_simp
            ring
          have h7 : r * (C2 - 0) = r * C2 := by ring
          linarith
        · push_neg at h4
          rw [gval_frac x rest C1 (by linarith) (by push_neg; linarith)]
          have hw0 : x.Weight ≠ 0 := ne_of_gt hxw
          have e1 : x.Value * (C2 / x.Weight) - x.Value * (C1 / x.Weight)
              = x.Value * (C2 - C1) / x.Weight := by
            field_simp
            ring
          have e2 : x.Value * (C2 - C1) / x.Weight ≤ r * (C2 - C1) := by
            rw [div_le_iff₀ hxw]
            have h8 : x.Value * (C2 - C1) ≤ (r * x.Weight) * (C2 - C1) :=
              mul_le_mul_of_nonneg_right hxv (by linarith)
            nlinarith [h8]
          linarith

theorem msum_w_nonneg (m : Multiset InventoryItem)
    (h : ∀ y ∈ m, 0 < y.Weight) : 0 ≤ (m.map (·.Weight)).sum := by
  refine Multiset.sum_nonneg ?_
  intro x hx
  rcases Multiset.mem_map.mp hx with ⟨y, hy, rfl⟩
  exact le_of_lt (h y hy)

theorem meq_zero_of_wsum_nonpos (m : Multiset InventoryItem)
    (h : ∀ y ∈ m, 0 < y.Weight) (hs : (m.map (·.Weight)).sum ≤ 0) : m = 0 := by
  by_contra hne
  obtain ⟨a, ha⟩ := Multiset.exists_mem_of_ne_zero hne
  obtain ⟨m', rfl⟩ := Multiset.exists_cons_of_mem ha
  simp only [Multiset.map_cons, Multiset.sum_cons] at hs
  have h1 : 0 < a.Weight := h a (by simp)
  have h2 : 0 ≤ (m'.map (·.Weight)).sum :=
    msum_w_nonneg m' (fun y hy => h y (by simp [hy]))
  linarith

theorem msum_v_le_ratio (r : ℚ) (m : Multiset InventoryItem) :
    (∀ y ∈ m, y.Value ≤ r * y.Weight) →
    (m.map (·.Value)).sum ≤ r * (m.map (·.Weight)).sum := by
  refine Multiset.induction_on m ?_ ?_
  · intro _
    simp
  · intro a s ih h
    simp only [Multiset.map_cons, Multiset.sum_cons]
    have h1 := h a (by simp)
    have h2 := ih (fun y hy => h y (by simp [hy]))
    have h3 : r * (a.Weight + (s.map (·.Weight)).sum)
        = r * a.Weight + r * (s.map (·.Weight)).sum := by ring
    linarith

theorem mle_of_le_cons_of_not_mem {α : Type} [DecidableEq α]
    {m s : Multiset α} {a : α} (h : m ≤ a ::ₘ s) (ha : a ∉ m) : m ≤ s := by
  rw [Multiset.le_iff_count] at h ⊢
  intro b
  have hb := h b
  by_cases hba : b = a
  · subst hba
    simp [Multiset.count_eq_zero_of_not_mem ha]
  · simpa [Multiset.count_cons_of_ne hba] using hb

/-- Main upper bound: on a ratio-descending list of positive-weight,
nonnegative-value items, any sub-multiset whose total weight fits in `C` has
value at most the greedy gain `gval l C` (the fractional-greedy value
upper-bounds every feasible 0/1 selection). -/
theorem gval_ge_feasible :
    ∀ (l : List InventoryItem) (C : ℚ),
      (∀ it ∈ l, 0 < it.Weight ∧ 0 ≤ it.Value) →
      l.Pairwise (fun a b => ratioOf b ≤ ratioOf a) →
      ∀ m : Multiset InventoryItem, m ≤ (l : Multiset InventoryItem) →
        (m.map (·.Weight)).sum ≤ C →
        (m.map (·.Value)).sum ≤ gval l C := by
  intro l
  induction l with
  | nil =>
    intro C _ _ m hm hw
    have h0 : m = 0 := Multiset.le_zero.mp (by simpa using hm)
    subst h0
    simp [gval]
  | cons x rest ih =>
    intro C hwv hsort m hm hwsum
    obtain ⟨hxw, hxv⟩ := hwv x (by simp)
    have hrest : ∀ it ∈ rest, 0 < it.Weight ∧ 0 ≤ it.Value :=
      fun y hy => hwv y (by simp [hy])
    have hsort' : rest.Pairwise (fun a b => ratioOf b ≤ ratioOf a) :=
      (List.pairwise_cons.mp hsort).2
    have hhead : ∀ y ∈ rest, ratioOf y ≤ ratioOf x :=
      (List.pairwise_cons.mp hsort).1
    have hrx : ratioOf x = x.Value / x.Weight := by rw [ratioOf, if_pos hxw]
    have hr0 : 0 ≤ ratioOf x := by
      rw [hrx]
      exact div_nonneg hxv (le_of_lt hxw)
    have hvx_eq : x.Value = ratioOf x * x.Weight := by
      rw [hrx]
      field_simp
    have hpoint : ∀ y ∈ rest, y.Value ≤ ratioOf x * y.Weight := by
      intro y hy
      have h1 := hhead y hy
      have hyw := (hrest y hy).1
      rw [ratioOf, if_pos hyw] at h1
      calc y.Value = (y.Value / y.Weight) * y.Weight := by field_simp
        _ ≤ ratioOf x * y.Weight := mul_le_mul_of_nonneg_right h1 (le_of_lt hyw)
    have hmemc : ∀ y ∈ m, y ∈ x :: rest := by
      intro y hy
      have h1 := Multiset.mem_of_le hm hy
      simpa using h1
    have hmc : m ≤ x ::ₘ (rest : Multiset InventoryItem) := by
      simpa using hm
    by_cases hC : C ≤ 0
    · have hm0 : m = 0 := meq_zero_of_wsum_nonpos m
        (fun y hy => (hwv y (hmemc y hy)).1) (le_trans hwsum hC)
      subst hm0
      rw [gval_stop x rest C hC]
      simp
    · by_cases h2 : x.Weight ≤ C
      · rw [gval_take x rest C hC h2]
        by_cases hxm : x ∈ m
        · obtain ⟨m', rfl⟩ := Multiset.exists_cons_of_mem hxm
          have hm' : m' ≤ (rest : Multiset InventoryItem) := by
            have h3 := Multiset.erase_le_erase x hmc
            simpa [Multiset.erase_cons_head] using h3
          simp only [Multiset.map_cons, Multiset.sum_cons] at hwsum ⊢
          have hih := ih (C - x.Weight) hrest hsort' m' hm' (by linarith)
          linarith
        · have hm2 : m ≤ (rest : Multiset InventoryItem) :=
            mle_of_le_cons_of_not_mem hmc hxm
          have hih := ih C hrest hsort' m hm2 hwsum
          have hL := gval_lipschitz (ratioOf x) hr0 rest (C - x.Weight) C
            (by linarith) (by linarith)
            (fun y hy => ⟨(hrest y hy).1, (hrest y hy).2, hpoint y hy⟩)
          have he : ratioOf x * (C - (C - x.Weight)) = ratioOf x * x.Weight := by
            ring
          linarith [hvx_eq]
      · push_neg at h2
        rw [gval_frac x rest C hC (not_le.mpr h2)]
        have hxm : x ∉ m := by
          intro hxm
          obtain ⟨m', rfl⟩ := Multiset.exists_cons_of_mem hxm
          simp only [Multiset.map_cons, Multiset.sum_cons] at hwsum
          have h3 : 0 ≤ (m'.map (·.Weight)).sum :=
            msum_w_nonneg m' (fun y hy => (hwv y (hmemc y (by simp [hy]))).1)
          linarith
        have hm2 : m ≤ (rest : Multiset InventoryItem) :=
          mle_of_le_cons_of_not_mem hmc hxm
        have hS2 := msum_v_le_ratio (ratioOf x) m
          (fun y hy => hpoint y (Multiset.mem_of_le hm2 hy))
        have hfr : x.Value * (C / x.Weight) = ratioOf x * C := by
          rw [hvx_eq]
          field_simp
          ring
        have h4 := mul_le_mul_of_nonneg_left hwsum hr0
        linarith

instance : IsTotal ItemWithRatio (fun a b => b.Ratio ≤ a.Ratio) :=
  ⟨fun a b => le_total b.Ratio a.Ratio⟩

instance : IsTrans ItemWithRatio (fun a b => b.Ratio ≤ a.Ratio) :=
  ⟨fun _ _ _ h1 h2 => le_trans h2 h1⟩

/-- Unwrapping the ratio wrappers gives back the input items. -/
theorem itemsWithRatio_map_item (items : List InventoryItem) :
    (itemsWithRatioOf items).map (·.Item) = items := by
  rw [itemsWithRatioOf, List.map_map]
  have h : ((fun x : ItemWithRatio => x.Item) ∘
      (fun p : ℕ × InventoryItem =>
        ({ Item := p.2, Ratio := ratioOf p.2, OriginalIndex := (p.1 : ℤ) } : ItemWithRatio)))
      = Prod.snd := rfl
  rw [h, List.enum_map_snd]

/-- The sorted item list is a permutation of the input items. -/
theorem sortedItems_perm (items : List InventoryItem) :
    ((sortByRatio (itemsWithRatioOf items)).map (·.Item)).Perm items := by
  have h1 : (sortByRatio (itemsWithRatioOf items)).Perm (itemsWithRatioOf items) :=
    List.perm_insertionSort _ _
  have h2 := h1.map (fun x : ItemWithRatio => x.Item)
  rw [itemsWithRatio_map_item] at h2
  exact h2

/-- Every wrapper carries the ratio of its item. -/
theorem ratio_field (items : List InventoryItem) :
    ∀ p ∈ itemsWithRatioOf items, p.Ratio = ratioOf p.Item := by
  intro p hp
  simp only [itemsWithRatioOf, List.mem_map] at hp
  obtain ⟨q, _, rfl⟩ := hp
  rfl

/-- The sorted item list is pairwise descending in `ratioOf`. -/
theorem sortedItems_pairwise (items : List InventoryItem) :
    ((sortByRatio (itemsWithRatioOf items)).map (·.Item)).Pairwise
      (fun a b => ratioOf b ≤ ratioOf a) := by
  have hs : (sortByRatio (itemsWithRatioOf items)).Pairwise
      (fun a b => b.Ratio ≤ a.Ratio) :=
    List.sorted_insertionSort _ _
  have hfield : ∀ p ∈ sortByRatio (itemsWithRatioOf items), p.Ratio = ratioOf p.Item :=
    fun p hp => ratio_field items p ((List.perm_insertionSort _ _).mem_iff.mp hp)
  rw [List.pairwise_map]
  exact hs.imp_of_mem (fun {a b} ha hb hab => by
    rw [← hfield a ha, ← hfield b hb]
    exact hab)

/-- C3 amended: for items with strictly positive exact-hundredth weights and
nonnegative values, the greedy/fractional solver's total value is at least
the exact DP solver's total value on the same input.  (The unrestricted
claim fails: a zero-weight item can be picked up by the DP but cut off by
the greedy loop's break after a fractional take, and weight truncation or
negative values also break it.) -/
theorem SolveKnapsackGreedy_ge_SolveKnapsack01 (items : List InventoryItem)
    (capacity : ℚ)
    (hitems : ∀ it ∈ items, 0 < it.Weight ∧ 0 ≤ it.Value ∧ (it.Weight * 100).den = 1) :
    (SolveKnapsack01 items capacity).TotalValue
      ≤ (SolveKnapsackGreedy items capacity).TotalValue := by
  by_cases h1 : items.isEmpty
  · simp [SolveKnapsack01, SolveKnapsackGreedy, h1]
  · by_cases h2 : capacity ≤ 0
    · simp [SolveKnapsack01, SolveKnapsackGreedy, h1, h2]
    · have hcap : 0 ≤ capacity := le_of_lt (not_le.mp h2)
      simp only [SolveKnapsack01, SolveKnapsackGreedy, if_neg h1, if_neg h2]
      rw [greedyGo_totalValue]
      simp only []
      set rows := (dpBuild (goTrunc (capacity * 100)) items).2 with hrows
      set taken := reconstructRev ((items.zip rows).reverse) (goTrunc (capacity * 100))
        with htaken
      set sorted := (sortByRatio (itemsWithRatioOf items)).map (·.Item) with hsorted
      have hperm : sorted.Perm items := sortedItems_perm items
      have hmemsorted : ∀ it ∈ sorted, it ∈ items := fun it hit => hperm.mem_iff.mp hit
      have hsub : ∀ it ∈ taken, it ∈ items := by
        intro it hit
        have ha := (reconstructRev_sublist _ (goTrunc (capacity * 100))).subset hit
        rw [List.map_reverse, List.mem_reverse] at ha
        exact (zip_map_fst_sublist items rows).subset ha
      have hfeas : (taken.map (·.Weight)).sum ≤ capacity :=
        reconstruct_weight_le_cap items capacity rows
          (fun it hit => ⟨le_of_lt (hitems it hit).1, (hitems it hit).2.2⟩) hcap
      have hsubperm : taken.Subperm sorted := by
        have s1 : List.Sublist taken ((items.zip rows).reverse.map Prod.fst) :=
          reconstructRev_sublist _ _
        have s2 : ((items.zip rows).reverse.map Prod.fst).Perm
            ((items.zip rows).map Prod.fst) := by
          rw [List.map_reverse]
          exact List.reverse_perm _
        have s3 : List.Sublist ((items.zip rows).map Prod.fst) items :=
          zip_map_fst_sublist items rows
        exact ((s1.subperm.trans s2.subperm).trans s3.subperm).trans
          hperm.symm.subperm
      have hms : (taken : Multiset InventoryItem) ≤ (sorted : Multiset InventoryItem) :=
        hsubperm
      have hbound := gval_ge_feasible sorted capacity
        (fun it hit => ⟨(hitems it (hmemsorted it hit)).1,
          (hitems it (hmemsorted it hit)).2.1⟩)
        (sortedItems_pairwise items)
        (taken : Multiset InventoryItem) hms
        (by simpa using hfeas)
      simpa using hbound

/-- A positive-weight item whose ratio puts it first for the greedy pass. -/
def itemHeavy : InventoryItem :=
  { ID := "h", Name := "h", Weight := 1, Value := 2 }

/-- A zero-weight item: ratio `0`, sorted last, but free for the DP. -/
def itemWeightless : InventoryItem :=
  { ID := "z", Name := "z", Weight := 0, Value := 5 }

/-- C3 counterexample: on `[{w=1,v=2},{w=0,v=5}]` with capacity `0.01` the
greedy takes a fraction of the heavy item (value `0.02`) and breaks before
reaching the free item, while the DP takes the free item (value `5`), so the
greedy value is NOT an upper bound of the DP value. -/
theorem SolveKnapsackGreedy_below_01 :
    ¬ (SolveKnapsack01 [itemHeavy, itemWeightless] (1 / 100)).TotalValue
        ≤ (SolveKnapsackGreedy [itemHeavy, itemWeightless] (1 / 100)).TotalValue := by
  norm_num [SolveKnapsack01, SolveKnapsackGreedy, itemHeavy, itemWeightless,
    dpBuild, dpItemPass, wsList, goTrunc, Rat.floor_def', zget, zgetB, zset,
    zsetB, reconstructRev, sortByRatio, itemsWithRatioOf, ratioOf, greedyGo,
    List.insertionSort, List.orderedInsert, List.enum, List.enumFrom,
    List.range_succ, List.replicate, List.foldl]

/-- Instance of the amended C3 on the scenario items at capacity `0.05`. -/
theorem SolveKnapsackGreedy_ge_SolveKnapsack01_witness :
    (∀ it ∈ itemsScenario, 0 < it.Weight ∧ 0 ≤ it.Value ∧ (it.Weight * 100).den = 1)
    ∧ (SolveKnapsack01 itemsScenario (1 / 20)).TotalValue
        ≤ (SolveKnapsackGreedy itemsScenario (1 / 20)).TotalValue := by
  have h : ∀ it ∈ itemsScenario, 0 < it.Weight ∧ 0 ≤ it.Value ∧ (it.Weight * 100).den = 1 := by
    intro it hit
    fin_cases hit <;> refine ⟨by norm_num [itemsScenario], by norm_num [itemsScenario], ?_⟩ <;>
      norm_num [itemsScenario]
  exact ⟨h, SolveKnapsackGreedy_ge_SolveKnapsack01 itemsScenario (1 / 20) h⟩
